import Mathlib

/-
Verification development for the dynamic tool-execution subsystem of the
voice-AI menu-board application (capability registry, sandboxed script
execution, tool catalog loading, credential gating, and the session
handshake).  The definitions below are shallow embeddings of the
TypeScript/JavaScript sources:
  - src/lib/tools/ToolExecutor.ts
  - src/contexts/ToolContext.tsx
  - src/lib/util/SettingsManager.ts
  - src/lib/sdk/events_proxy (session handshake handlers)
JavaScript machine behaviour is modelled explicitly: JSON values are a
finite inductive tree, `JSON.parse` is an abstract parameter (a partial
function from strings to JSON trees), thrown values are either Error
objects carrying a message or non-Error values, and `Array.prototype.sort`
with the numeric comparator used by the code is modelled by a stable
insertion sort on an integer key.
-/

namespace NovaSonic

/-- JSON value trees, modelling the values produced by JSON.parse and
consumed by JSON.stringify in the scripts under study. Numbers are
modelled as integers (the code never manipulates fractional schema or
payload numbers). -/
inductive Json where
  | null : Json
  | bool (b : Bool) : Json
  | num (n : Int) : Json
  | str (s : String) : Json
  | arr (elems : List Json) : Json
  | obj (fields : List (String × Json)) : Json

/-- Escape one character for a JSON string literal (quote, backslash and
newline, the cases that can arise in the messages under study; other
characters are emitted verbatim). -/
def escapeJsonChar (c : Char) : String :=
  if c = Char.ofNat 34 then String.singleton (Char.ofNat 92) ++ String.singleton (Char.ofNat 34)
  else if c = Char.ofNat 92 then String.singleton (Char.ofNat 92) ++ String.singleton (Char.ofNat 92)
  else if c = Char.ofNat 10 then String.singleton (Char.ofNat 92) ++ "n"
  else String.singleton c

/-- JSON string literal with quotes, as produced by JSON.stringify. -/
def quoteJsonString (s : String) : String :=
  String.singleton (Char.ofNat 34) ++ String.join (s.toList.map escapeJsonChar) ++ String.singleton (Char.ofNat 34)

/-- Comma-join a list of already rendered fragments. -/
def commaJoin : List String → String
  | [] => ""
  | [x] => x
  | x :: xs => x ++ "," ++ commaJoin xs

mutual

/-- JSON.stringify on finite JSON trees (no indentation argument, exactly
as called by the code under study). On acyclic, BigInt-free values the
real JSON.stringify is total, so this model is a total function. -/
def stringifyJson : Json → String
  | Json.null => "null"
  | Json.bool b => if b then "true" else "false"
  | Json.num n => toString n
  | Json.str s => quoteJsonString s
  | Json.arr xs => "[" ++ commaJoin (stringifyJsonList xs) ++ "]"
  | Json.obj fs => "\x7b" ++ commaJoin (stringifyJsonFields fs) ++ "\x7d"

/-- Render each array element. -/
def stringifyJsonList : List Json → List String
  | [] => []
  | x :: xs => stringifyJson x :: stringifyJsonList xs

/-- Render each object field as key:value. -/
def stringifyJsonFields : List (String × Json) → List String
  | [] => []
  | f :: fs => (quoteJsonString f.1 ++ ":" ++ stringifyJson f.2) :: stringifyJsonFields fs

end

/-- Property access obj.k on a JSON value: the first field with the given
name, none on non-objects or absent fields (JavaScript undefined). -/
def Json.getField : Json → String → Option Json
  | Json.obj fs, k => (fs.find? (fun p => p.1 == k)).map (fun p => p.2)
  | _, _ => none

mutual

/-- String() coercion of a JSON-representable value, as applied implicitly
by template strings and by JSON.parse to a non-string argument. Arrays
join their elements with commas (null elements become empty), plain
objects render as [object Object]. -/
def jsToString : Json → String
  | Json.null => "null"
  | Json.bool b => if b then "true" else "false"
  | Json.num n => toString n
  | Json.str s => s
  | Json.arr xs => commaJoin (jsToStringArrElems xs)
  | Json.obj _ => "[object Object]"

/-- Array element rendering under String(): null renders empty. -/
def jsToStringArrElems : List Json → List String
  | [] => []
  | Json.null :: xs => "" :: jsToStringArrElems xs
  | x :: xs => jsToString x :: jsToStringArrElems xs

end

/-- Runtime JavaScript values as far as the registry and auth accessors
observe them: undefined and null are distinguished, strArr models an
array of strings (the paramNames array). -/
inductive JsValue where
  | undef : JsValue
  | null : JsValue
  | bool (b : Bool) : JsValue
  | num (n : Int) : JsValue
  | str (s : String) : JsValue
  | strArr (elems : List String) : JsValue
deriving DecidableEq, Repr

/-- JavaScript truthiness on the modelled values. -/
def JsValue.truthy : JsValue → Bool
  | JsValue.undef => false
  | JsValue.null => false
  | JsValue.bool b => b
  | JsValue.num n => n != 0
  | JsValue.str s => s ≠ ""
  | JsValue.strArr _ => true

/-- Stable insertion of an element into a list ordered by an integer key:
the element goes after every existing element with a key less than or
equal to its own. Together with sortByKey this models the (stable, per
ES2019) Array.prototype.sort with comparator (a, b) => key(a) - key(b). -/
def insertOrdered (key : α → Int) (x : α) : List α → List α
  | [] => [x]
  | y :: ys => if key y ≤ key x then y :: insertOrdered key x ys else x :: y :: ys

/-- Stable sort by an integer key (model of Array.prototype.sort with a
numeric comparator). -/
def sortByKey (key : α → Int) : List α → List α
  | [] => []
  | x :: xs => insertOrdered key x (sortByKey key xs)

/-
Capability registry (src/contexts/ToolContext.tsx). The registry is a
JavaScript Map from component name to registration, modelled as an
insertion-ordered association list with the Map.set / Map.delete
semantics: set replaces the value in place when the key exists and
appends otherwise, delete removes the entry for the key.
-/

/-- Map.set semantics on an insertion-ordered association list: replace
in place if the key is present, append otherwise. -/
def mapSet (m : List (String × α)) (k : String) (v : α) : List (String × α) :=
  match m with
  | [] => [(k, v)]
  | (k0, v0) :: rest =>
      if k0 = k then (k, v) :: rest else (k0, v0) :: mapSet rest k v

/-- Map.delete semantics: remove the entry for the key (no-op if absent). -/
def mapDelete (m : List (String × α)) (k : String) : List (String × α) :=
  match m with
  | [] => []
  | (k0, v0) :: rest =>
      if k0 = k then rest else (k0, v0) :: mapDelete rest k

/-- Map.get semantics: the value stored under the key, if any. -/
def mapGet (m : List (String × α)) (k : String) : Option α :=
  match m with
  | [] => none
  | (k0, v0) :: rest => if k0 = k then some v0 else mapGet rest k

/-- A component registration as stored by ToolContext: the name keys the
registry; the methods, description and category are opaque here. -/
structure ComponentReg (α : Type) where
  name : String
  payload : α

/-- registerComponent: upsert the registration under its name
(ToolContext.tsx, setComponentRegistry with newRegistry.set). -/
def registerComponent (m : List (String × ComponentReg α)) (r : ComponentReg α) :
    List (String × ComponentReg α) :=
  mapSet m r.name r

/-- unregisterComponent: remove the entry for the name
(ToolContext.tsx, newRegistry.delete). -/
def unregisterComponent (m : List (String × ComponentReg α)) (name : String) :
    List (String × ComponentReg α) :=
  mapDelete m name

/-- getComponentRegistry: Array.from(componentRegistry.values()). -/
def getComponentRegistry (m : List (String × ComponentReg α)) : List (ComponentReg α) :=
  m.map (fun p => p.2)

/-- One registry mutation, as issued by mounting or unmounting UI pieces. -/
inductive RegistryOp (α : Type) where
  | register (r : ComponentReg α) : RegistryOp α
  | unregister (name : String) : RegistryOp α

/-- Apply a sequence of register/unregister calls to the empty registry
(new Map()), earliest call first. -/
def applyRegistryOps : List (RegistryOp α) → List (String × ComponentReg α)
  | [] => []
  | RegistryOp.register r :: ops => registerComponent (applyRegistryOps ops) r
  | RegistryOp.unregister n :: ops => unregisterComponent (applyRegistryOps ops) n

/-
Readiness polling (ToolContext.tsx, waitForComponentsReady). The loop
starts with an immediate check, then polls every 100 ms up to
maxAttempts = 50 before resolving anyway. regAt n is the set of
registered component names visible at the n-th poll (n = 0 is the
immediate check); the real closure reads a fixed snapshot, which is the
constant special case.
-/

/-- The expected core component names (ToolContext.tsx,
expectedComponents). -/
def expectedComponents : List String := ["app", "chat", "ui", "auth", "menu", "cart"]

/-- areComponentsReady: every expected name is registered. -/
def areComponentsReady (registered : List String) : Bool :=
  expectedComponents.all (fun name => registered.contains name)

/-- The expected names missing from a registry snapshot (computed for the
timeout warning). -/
def missingComponents (registered : List String) : List String :=
  expectedComponents.filter (fun name => ¬ registered.contains name)

/-- Outcome of one waitForComponentsReady call: how many interval polls
ran before the promise resolved (0 = resolved by the immediate check;
elapsed time is polls * 100 ms), and the missing names logged by the
timeout branch (empty when readiness was observed). The promise always
resolves: this is a total function and rejection is not representable. -/
structure WaitOutcome where
  polls : Nat
  missingLogged : List String
deriving DecidableEq, Repr

/-- The setInterval body: attempts has just been incremented to attempt;
resolve when ready, resolve with the missing names once
attempt >= maxAttempts = 50, otherwise keep polling. The fuel argument
only witnesses termination and is chosen large enough (attempt + fuel >
50 on every call) that its base case is unreachable. -/
def pollTicks (regAt : Nat → List String) : Nat → Nat → WaitOutcome
  | attempt, 0 => ⟨attempt, missingComponents (regAt attempt)⟩
  | attempt, fuel + 1 =>
      if areComponentsReady (regAt attempt) then ⟨attempt, []⟩
      else if 50 ≤ attempt then ⟨attempt, missingComponents (regAt attempt)⟩
      else pollTicks regAt (attempt + 1) fuel

/-- waitForComponentsReady: immediate check, then up to 50 polls at
100 ms, resolving anyway (never rejecting) on timeout. -/
def waitForComponentsReady (regAt : Nat → List String) : WaitOutcome :=
  if areComponentsReady (regAt 0) then ⟨0, []⟩
  else pollTicks regAt 1 50

/-
Auth accessors of the execution context (ToolContext.tsx,
getExecutionContext, auth section). The components object built from the
registry maps each name to its methods record; only the four auth
methods are relevant here, each modelled by the value its call would
produce when the method is present.
-/

/-- The three Cognito tokens as returned by the getTokens accessor. -/
structure Tokens where
  idToken : JsValue
  accessToken : JsValue
  refreshToken : JsValue
deriving DecidableEq, Repr

/-- The methods record of a registered component, restricted to the four
auth-bundle methods. A field is none when the component does not expose
that method (optional-chained call yields undefined). -/
structure AuthMethods where
  getCredentialsResult : Option JsValue := none
  getTokensResult : Option Tokens := none
  getJWTResult : Option JsValue := none
  getUserInfoResult : Option JsValue := none

/-- auth.getCredentials: components.auth?.getCredentials?.() || null. -/
def authGetCredentials (components : List (String × AuthMethods)) : JsValue :=
  match mapGet components "auth" with
  | none => JsValue.null
  | some m =>
      match m.getCredentialsResult with
      | none => JsValue.null
      | some v => if v.truthy then v else JsValue.null

/-- auth.getTokens: await components.auth.getTokens() when the method is
present, the null-filled token record otherwise. -/
def authGetTokens (components : List (String × AuthMethods)) : Tokens :=
  match mapGet components "auth" with
  | none => ⟨JsValue.null, JsValue.null, JsValue.null⟩
  | some m =>
      match m.getTokensResult with
      | none => ⟨JsValue.null, JsValue.null, JsValue.null⟩
      | some t => t

/-- auth.getJWT: await components.auth.getJWT() when present, null
otherwise. -/
def authGetJWT (components : List (String × AuthMethods)) : JsValue :=
  match mapGet components "auth" with
  | none => JsValue.null
  | some m =>
      match m.getJWTResult with
      | none => JsValue.null
      | some v => v

/-- auth.getUserInfo: components.auth?.getUserInfo?.() || null. -/
def authGetUserInfo (components : List (String × AuthMethods)) : JsValue :=
  match mapGet components "auth" with
  | none => JsValue.null
  | some m =>
      match m.getUserInfoResult with
      | none => JsValue.null
      | some v => if v.truthy then v else JsValue.null

/-
Sandbox scope model (ToolExecutor.ts, executeScript). The script body is
compiled with new Function(...paramNames, 'paramNames', asyncScript) and
invoked as func(...paramValues, paramNames). Per the ECMAScript
semantics of the Function constructor, the created function closes over
the global scope only: its scope chain is the parameter environment
followed by the global environment, and the enclosing lexical scope of
ToolExecutor is not on the chain. Identifier resolution walks the chain
front to back.
-/

/-- Resolve an identifier along a scope chain (innermost environment
first); none models a ReferenceError. -/
def resolveIdent : List (List (String × JsValue)) → String → Option JsValue
  | [], _ => none
  | env :: outer, x =>
      match mapGet env x with
      | some v => some v
      | none => resolveIdent outer x

/-- The parameter environment of the compiled tool script: one parameter
per supplied binding, in order, plus the trailing implicit paramNames
parameter bound to the array of binding names
(new Function(...paramNames, 'paramNames', asyncScript) applied to
(...paramValues, paramNames)). -/
def executeScriptParams (bindings : List (String × JsValue)) : List (String × JsValue) :=
  bindings ++ [("paramNames", JsValue.strArr (bindings.map (fun p => p.1)))]

/-- The scope chain of the executed script: its parameters, then the
JavaScript global scope. The enclosing ToolExecutor scope is absent by
the Function-constructor semantics. -/
def executeScriptScope (bindings globalScope : List (String × JsValue)) :
    List (List (String × JsValue)) :=
  [executeScriptParams bindings, globalScope]

/-
Tool catalog loading (ToolExecutor.ts). JSON.parse is abstract: any
partial function from strings to JSON trees; the claims quantify over
it, so they hold for the real parser in particular.
-/

/-- A persisted tool definition (SettingsManager.ts, interface Tool;
ToolExecutor.ts, interface ToolConfig). inputSchemaJson is the
inputSchema.json string. -/
structure ToolConfig where
  tool_name : String
  description : String
  inputSchemaJson : String
  script : String
  run_after_app_init : Bool
  order : Int
deriving DecidableEq, Repr

/-- A global parameter (SettingsManager.ts, interface GlobalParameter).
The value is none when undefined. -/
structure GlobalParam where
  key : String
  value : Option String
  order : Int
deriving DecidableEq, Repr

/-- The agent configuration as read by getAgentConfig. -/
structure AgentConfig where
  system_prompt : String
  globalParameters : List GlobalParam
  tools : List ToolConfig
deriving DecidableEq, Repr

/-- The permissive default schema substituted when inputSchema.json fails
to parse (ToolExecutor.processTool). -/
def defaultSchema : Json :=
  Json.obj [("type", Json.str "object"), ("properties", Json.obj []), ("required", Json.arr [])]

/-- A processed tool ready for registration (ToolExecutor.ts,
ProcessedTool). The action closure is determined by the script text and
tool name it captures, so those two fields stand for it. -/
structure ProcessedTool where
  toolname : String
  description : String
  inputSchemaJson : String
  script : String
deriving DecidableEq, Repr

/-- ToolExecutor.processTool: parse the schema text, substitute the
permissive default on failure, re-stringify it, and build the action
from the script text and tool name. Nothing in the body can throw, so
the function is total. -/
def processTool (parse : String → Option Json) (t : ToolConfig) : ProcessedTool :=
  let parsedSchema := (parse t.inputSchemaJson).getD defaultSchema
  { toolname := t.tool_name
    description := t.description
    inputSchemaJson := stringifyJson parsedSchema
    script := t.script }

/-- The order key used by both sort comparators: the order of the first
config with the given tool name, defaulting to 0 when absent
(toolConfigs.find(...)?.order || 0; on integers the || 0 fallback is the
identity except on the absent case). -/
def orderOf (tools : List ToolConfig) (name : String) : Int :=
  match tools.find? (fun c => c.tool_name = name) with
  | some c => c.order
  | none => 0

/-- ToolExecutor.loadToolsFromConfig: process every configured tool (the
per-tool catch never fires since processTool is total), then sort by
order. -/
def loadToolsFromConfig (parse : String → Option Json) (tools : List ToolConfig) :
    List ProcessedTool :=
  sortByKey (fun pt => orderOf tools pt.toolname) (tools.map (processTool parse))

/-- ToolExecutor.getInitializationTools: the loaded tools whose config
has run_after_app_init === true. -/
def getInitializationTools (parse : String → Option Json) (tools : List ToolConfig) :
    List ProcessedTool :=
  (loadToolsFromConfig parse tools).filter (fun pt =>
    match tools.find? (fun c => c.tool_name = pt.toolname) with
    | some c => c.run_after_app_init
    | none => false)

/-
Tool action execution (ToolExecutor.ts, createToolAction and
executeScript). A thrown JavaScript value is either an Error carrying a
message or a non-Error value; the raw result of the awaited script entry
point is a string, a JSON-representable value, undefined, or a value
JSON.stringify rejects (circular; the host TypeError message is carried
explicitly). The script outcome itself is abstract: the claims quantify
over every possible behaviour of the operator-supplied script.
-/

/-- A thrown JavaScript value: an Error with its message, or any
non-Error value. -/
inductive JsThrown where
  | err (msg : String) : JsThrown
  | nonErr : JsThrown
deriving DecidableEq, Repr

/-- error instanceof Error ? error.message : 'Unknown error'. -/
def thrownMessage : JsThrown → String
  | JsThrown.err m => m
  | JsThrown.nonErr => "Unknown error"

/-- The value produced by the awaited script entry point. -/
inductive RawResult where
  | str (s : String) : RawResult
  | json (j : Json) : RawResult
  | undef : RawResult
  | circular (hostMsg : String) : RawResult

/-- ToolExecutor.executeScript: run the compiled script (abstract
outcome); any compile or runtime failure is caught and rethrown as
Error('Script execution failed: ' + message). -/
def executeScriptOutcome (outcome : Except JsThrown RawResult) : Except JsThrown RawResult :=
  match outcome with
  | Except.ok v => Except.ok v
  | Except.error t => Except.error (JsThrown.err ("Script execution failed: " ++ thrownMessage t))

/-- Result coercion in the action body: typeof result === 'string' ?
result : JSON.stringify(result). JSON.stringify(undefined) is undefined,
so the action can resolve with undefined (none); on a circular value
JSON.stringify throws the host TypeError. -/
def coerceResult : RawResult → Except JsThrown (Option String)
  | RawResult.str s => Except.ok (some s)
  | RawResult.json j => Except.ok (some (stringifyJson j))
  | RawResult.undef => Except.ok none
  | RawResult.circular hostMsg => Except.error (JsThrown.err hostMsg)

/-- The structured failure payload built in the action's catch block. -/
def errorPayload (msg toolName sessionId : String) : Json :=
  Json.obj [("error", Json.bool true), ("message", Json.str msg),
            ("toolName", Json.str toolName), ("sessionId", Json.str sessionId)]

/-- The message of the error thrown when the execution context is not
set. -/
def contextNotSetMsg : String :=
  "Tool execution context not set. Make sure ToolExecutor.setExecutionContext() is called."

/-- Input parsing in the action body:
JSON.parse(JSON.parse(inputFromNovaSonic).content), falling back to the
raw-string wrapper object on any parse failure. A non-string content is
coerced by String() before the second parse; an absent content coerces
to "undefined". -/
def parseNovaInput (parse : String → Option Json) (input : String) : Json :=
  let fallback := Json.obj [("rawInput", Json.str input)]
  match parse input with
  | none => fallback
  | some outer =>
      let contentStr :=
        match outer.getField "content" with
        | some (Json.str s) => s
        | some v => jsToString v
        | none => "undefined"
      (parse contentStr).getD fallback

/-- Global parameter resolution in the action body: keep parameters with
a truthy key and a defined value, later entries overwriting earlier ones
on the same key. -/
def buildGlobals (params : List GlobalParam) : List (String × String) :=
  params.foldl
    (fun acc p =>
      match p.value with
      | some v => if p.key ≠ "" then mapSet acc p.key v else acc
      | none => acc)
    []

/-- The execution context installed by setExecutionContext; its contents
are opaque to the control flow under study, only the registered
component names are kept. -/
structure ExecContext where
  componentNames : List String
deriving DecidableEq, Repr

/-- The action built by ToolExecutor.createToolAction, as invoked with
(sessionId, inputFromNovaSonic, agentTriggered). Except.error models a
thrown error (rejected promise); Except.ok is the resolved value (none =
undefined). The context check precedes the try block, so its throw
escapes; every failure inside the try block is caught and converted to
the structured JSON payload. The script outcome is abstract. -/
def createToolActionRun (ctx : Option ExecContext) (cfg : AgentConfig)
    (parse : String → Option Json) (scriptOutcome : Except JsThrown RawResult)
    (toolName sessionId inputFromNovaSonic : String) (agentTriggered : Bool) :
    Except JsThrown (Option String) :=
  match ctx with
  | none => Except.error (JsThrown.err contextNotSetMsg)
  | some _ =>
      let _parsedInput := parseNovaInput parse inputFromNovaSonic
      let _globals := buildGlobals cfg.globalParameters
      let _trig := agentTriggered
      match executeScriptOutcome scriptOutcome with
      | Except.error t =>
          Except.ok (some (stringifyJson (errorPayload (thrownMessage t) toolName sessionId)))
      | Except.ok v =>
          match coerceResult v with
          | Except.error t =>
              Except.ok (some (stringifyJson (errorPayload (thrownMessage t) toolName sessionId)))
          | Except.ok s => Except.ok s

/-
Credential storage and session validation (SettingsManager.getCredentials
and ToolExecutor.validateCognitoSession / executeInitializationTools).
Session storage holds nothing (none), an unparseable record (some none),
or a parsed credential record (some (some c)). Timestamps are integers;
expiration is none when the stored field is absent or falsy.
-/

/-- A stored credential record. -/
structure CredRecord where
  accessKeyId : String
  secretAccessKey : String
  sessionToken : String
  expiration : Option Int
deriving DecidableEq, Repr

/-- The session-storage slot for credentials: absent, unparseable, or a
record. -/
abbrev CredStore := Option (Option CredRecord)

/-- SettingsManager.getCredentials at clock instant now: returns the
record and the updated store. An expired record (expiration <= now) is
removed from session storage and null is returned; an unparseable record
returns null without removal (the catch only logs). -/
def getCredentialsAt (store : CredStore) (now : Int) : Option CredRecord × CredStore :=
  match store with
  | none => (none, none)
  | some none => (none, some none)
  | some (some c) =>
      match c.expiration with
      | some e => if e ≤ now then (none, none) else (some c, store)
      | none => (some c, store)

/-- Outcome of the dynamic import plus fetchAuthSession() call: a throw,
or a session with or without credentials and an idToken. -/
inductive AmplifyOutcome where
  | throws (t : JsThrown) : AmplifyOutcome
  | session (hasCredentials hasIdToken : Bool) : AmplifyOutcome
deriving DecidableEq, Repr

/-- ToolExecutor.validateCognitoSession. now1 is the clock when
getCredentials reads new Date(); now2 is the clock of the separate
expiration re-check in the ToolExecutor (the two reads are consecutive
synchronous statements). Returns (isValid, reason). -/
def validateCognitoSession (store : CredStore) (now1 now2 : Int)
    (amplify : AmplifyOutcome) : Bool × String :=
  match (getCredentialsAt store now1).1 with
  | none => (false, "No credentials found in session storage")
  | some credentials =>
      let expiredHere :=
        match credentials.expiration with
        | some e => decide (e ≤ now2)
        | none => false
      if expiredHere then (false, "Stored credentials have expired")
      else
        match amplify with
        | AmplifyOutcome.throws t =>
            (false, "Session validation error: " ++ thrownMessage t)
        | AmplifyOutcome.session hasCredentials hasIdToken =>
            if ¬ hasCredentials then (false, "No valid auth session available")
            else if ¬ hasIdToken then (false, "No valid ID token available")
            else (true, "Valid session confirmed")

/-- The result record of executeInitializationTools. -/
structure InitToolsResult where
  executed : Bool
  reason : String
deriving DecidableEq, Repr

/-- ToolExecutor.executeInitializationTools, paired with the trace of
initialization-tool actions it invokes, in invocation order (each action
is awaited before the next starts; a failing action is caught and the
loop continues, so the trace is the sorted list itself). -/
def executeInitializationTools (parse : String → Option Json) (store : CredStore)
    (now1 now2 : Int) (amplify : AmplifyOutcome) (cfg : AgentConfig) :
    InitToolsResult × List String :=
  let v := validateCognitoSession store now1 now2 amplify
  if v.1 = false then (⟨false, v.2⟩, [])
  else
    let initTools := getInitializationTools parse cfg.tools
    if initTools.isEmpty then (⟨true, "No tools configured"⟩, [])
    else
      let sortedTools := sortByKey (fun pt => orderOf cfg.tools pt.toolname) initTools
      (⟨true, "All tools completed successfully"⟩, sortedTools.map (fun pt => pt.toolname))

/-
Session handshake (App initializeSession in src/App.tsx together with the
events_proxy handlers in src/lib/sdk/events_proxy). Event dispatch on the
EventTarget is synchronous and the single-threaded handler chain performs
the client calls in a fixed order; the trace below records, in order, the
bus events dispatched and the calls made on the remote streaming client
wrapper.
-/

/-- One observable step of the handshake: a bus event or a call on the
remote streaming client / stream session. -/
inductive HSItem where
  | evCreateSession : HSItem
  | callCreateStreamSession : HSItem
  | evSessionCreated : HSItem
  | evInitiateSession : HSItem
  | callSetTool (name : String) : HSItem
  | callInitiateSession : HSItem
  | evSessionInitiated : HSItem
  | evPromptStart : HSItem
  | callSetupPromptStart : HSItem
  | evSystemPrompt (text : String) : HSItem
  | callSetupSystemPrompt (text : String) : HSItem
  | evAudioStart : HSItem
  | callSetupStartAudio : HSItem
deriving DecidableEq, Repr

/-- The handshake trace for one session initialization: createSession is
dispatched; the events_proxy creates the stream session and dispatches
sessionCreated; the App loads the catalog and dispatches initiateSession
with the processed tools; the events_proxy registers each tool via
setTool in list order, then calls initiateSession on the client and
dispatches sessionInitiated; the App then dispatches promptStart,
systemPrompt and audioStart, whose handlers call the paired session
setup methods. -/
def handshakeTrace (tools : List ProcessedTool) (prompt : String) : List HSItem :=
  [HSItem.evCreateSession, HSItem.callCreateStreamSession,
   HSItem.evSessionCreated, HSItem.evInitiateSession]
  ++ tools.map (fun t => HSItem.callSetTool t.toolname)
  ++ [HSItem.callInitiateSession, HSItem.evSessionInitiated,
      HSItem.evPromptStart, HSItem.callSetupPromptStart,
      HSItem.evSystemPrompt prompt, HSItem.callSetupSystemPrompt prompt,
      HSItem.evAudioStart, HSItem.callSetupStartAudio]

/-- Whether a trace item is a setTool call. -/
def isSetTool : HSItem → Bool
  | HSItem.callSetTool _ => true
  | _ => false

/-
Helper lemmas about the association-list Map model.
-/

theorem mapGet_eq_none {α : Type} (m : List (String × α)) (k : String)
    (h : k ∉ m.map Prod.fst) : mapGet m k = none := by
  induction m with
  | nil => rfl
  | cons p rest ih =>
      obtain ⟨k0, v0⟩ := p
      simp only [List.map_cons, List.mem_cons, not_or] at h
      simp only [mapGet]
      rw [if_neg (fun he => h.1 he.symm)]
      exact ih h.2

theorem mapGet_isSome_iff {α : Type} (m : List (String × α)) (k : String) :
    (mapGet m k).isSome = true ↔ k ∈ m.map Prod.fst := by
  induction m with
  | nil => simp [mapGet]
  | cons p rest ih =>
      obtain ⟨k0, v0⟩ := p
      by_cases h : k0 = k
      · simp [mapGet, h]
      · simp only [mapGet, if_neg h, List.map_cons, List.mem_cons, ih]
        constructor
        · exact fun hk => Or.inr hk
        · rintro (hk | hk)
          · exact absurd hk.symm h
          · exact hk

theorem mem_of_mapGet {α : Type} (m : List (String × α)) (k : String) (v : α)
    (h : mapGet m k = some v) : (k, v) ∈ m := by
  induction m with
  | nil => simp [mapGet] at h
  | cons p rest ih =>
      obtain ⟨k0, v0⟩ := p
      by_cases hp : k0 = k
      · simp only [mapGet, if_pos hp, Option.some.injEq] at h
        subst hp
        subst h
        exact List.mem_cons_self _ _
      · simp only [mapGet, if_neg hp] at h
        exact List.mem_cons_of_mem _ (ih h)

theorem mapSet_keys {α : Type} (m : List (String × α)) (k : String) (v : α) :
    (mapSet m k v).map Prod.fst =
      if k ∈ m.map Prod.fst then m.map Prod.fst else m.map Prod.fst ++ [k] := by
  induction m with
  | nil => simp [mapSet]
  | cons p rest ih =>
      obtain ⟨k0, v0⟩ := p
      by_cases hp : k0 = k
      · simp [mapSet, hp]
      · simp only [mapSet, if_neg hp, List.map_cons, ih, List.mem_cons]
        by_cases hk : k ∈ rest.map Prod.fst
        · rw [if_pos hk, if_pos (Or.inr hk)]
        · rw [if_neg hk, if_neg ?_]
          · simp
          · rintro (he | he)
            · exact hp he.symm
            · exact hk he

theorem nodup_keys_mapSet {α : Type} (m : List (String × α)) (k : String) (v : α)
    (h : (m.map Prod.fst).Nodup) : ((mapSet m k v).map Prod.fst).Nodup := by
  rw [mapSet_keys]
  by_cases hk : k ∈ m.map Prod.fst
  · rw [if_pos hk]; exact h
  · rw [if_neg hk]
    simp only [List.nodup_append, List.nodup_cons, List.nodup_nil]
    refine ⟨h, ⟨by simp, by simp⟩, ?_⟩
    simp only [List.disjoint_singleton]
    exact hk

theorem keys_mapDelete_sublist {α : Type} (m : List (String × α)) (k : String) :
    ((mapDelete m k).map Prod.fst).Sublist (m.map Prod.fst) := by
  induction m with
  | nil => simp [mapDelete]
  | cons p rest ih =>
      obtain ⟨k0, v0⟩ := p
      by_cases hp : k0 = k
      · simp only [mapDelete, if_pos hp, List.map_cons]
        exact List.sublist_cons_self _ _
      · simp only [mapDelete, if_neg hp, List.map_cons]
        exact List.Sublist.cons₂ _ ih

theorem nodup_keys_mapDelete {α : Type} (m : List (String × α)) (k : String)
    (h : (m.map Prod.fst).Nodup) : ((mapDelete m k).map Prod.fst).Nodup :=
  List.Nodup.sublist (keys_mapDelete_sublist m k) h

theorem mapGet_mapSet_self {α : Type} (m : List (String × α)) (k : String) (v : α) :
    mapGet (mapSet m k v) k = some v := by
  induction m with
  | nil => simp [mapSet, mapGet]
  | cons p rest ih =>
      obtain ⟨k0, v0⟩ := p
      by_cases hp : k0 = k
      · simp [mapSet, hp, mapGet]
      · simp only [mapSet, if_neg hp, mapGet, if_neg hp]
        exact ih

theorem mem_mapSet_value_eq {α : Type} (m : List (String × α)) (k : String) (v : α)
    (hnod : (m.map Prod.fst).Nodup) :
    ∀ p ∈ mapSet m k v, p.1 = k → p.2 = v := by
  induction m with
  | nil =>
      intro p hp hk
      simp only [mapSet, List.mem_singleton] at hp
      rw [hp]
  | cons q rest ih =>
      intro p hp hk
      obtain ⟨q1, q2⟩ := q
      simp only [List.map_cons, List.nodup_cons] at hnod
      by_cases hq : q1 = k
      · simp only [mapSet, if_pos hq, List.mem_cons] at hp
        rcases hp with hp | hp
        · rw [hp]
        · exfalso
          apply hnod.1
          rw [hq, ← hk]
          exact List.mem_map_of_mem Prod.fst hp
      · simp only [mapSet, if_neg hq, List.mem_cons] at hp
        rcases hp with hp | hp
        · exfalso
          apply hq
          rw [← hk, hp]
        · exact ih hnod.2 p hp hk


theorem nodup_keys_applyRegistryOps {α : Type} (ops : List (RegistryOp α)) :
    ((applyRegistryOps ops).map Prod.fst).Nodup := by
  induction ops with
  | nil => simp [applyRegistryOps]
  | cons op rest ih =>
      cases op with
      | register r => exact nodup_keys_mapSet _ _ _ ih
      | unregister n => exact nodup_keys_mapDelete _ _ ih

/-
Helper lemmas about the polling loop.
-/

theorem pollTicks_polls_le (regAt : Nat → List String) :
    ∀ (fuel attempt : Nat), attempt ≤ 50 → 50 ≤ attempt + fuel →
      (pollTicks regAt attempt fuel).polls ≤ 50 := by
  intro fuel
  induction fuel with
  | zero =>
      intro attempt h1 _
      exact h1
  | succ n ih =>
      intro attempt h1 h2
      simp only [pollTicks]
      split
      · exact h1
      · split
        · exact h1
        · exact ih (attempt + 1) (by omega) (by omega)

theorem pollTicks_never_ready (regAt : Nat → List String)
    (h : ∀ n, areComponentsReady (regAt n) = false) :
    ∀ (fuel attempt : Nat), attempt + fuel = 51 → attempt ≤ 50 →
      pollTicks regAt attempt fuel = ⟨50, missingComponents (regAt 50)⟩ := by
  intro fuel
  induction fuel with
  | zero =>
      intro attempt h1 h2
      omega
  | succ n ih =>
      intro attempt h1 h2
      simp only [pollTicks, h attempt, Bool.false_eq_true, if_false]
      split
      · have ha : attempt = 50 := by omega
        rw [ha]
      · exact ih (attempt + 1) (by omega) (by omega)

/-
Helper lemmas about scope-chain resolution.
-/

theorem resolveIdent_pair (e1 e2 : List (String × JsValue)) (x : String) :
    resolveIdent [e1, e2] x =
      match mapGet e1 x with
      | some v => some v
      | none => mapGet e2 x := by
  simp only [resolveIdent]
  cases mapGet e1 x with
  | none => cases mapGet e2 x <;> rfl
  | some v => rfl

theorem executeScriptParams_keys (bindings : List (String × JsValue)) :
    (executeScriptParams bindings).map Prod.fst = bindings.map Prod.fst ++ ["paramNames"] := by
  simp [executeScriptParams]

/-
Helper lemmas about the stable sort.
-/

theorem insertOrdered_perm (key : α → Int) (x : α) (l : List α) :
    (insertOrdered key x l).Perm (x :: l) := by
  induction l with
  | nil => simp [insertOrdered]
  | cons y ys ih =>
      simp only [insertOrdered]
      split
      · exact (List.Perm.cons y ih).trans (List.Perm.swap x y ys)
      · exact List.Perm.refl _

theorem sortByKey_perm (key : α → Int) (l : List α) : (sortByKey key l).Perm l := by
  induction l with
  | nil => simp [sortByKey]
  | cons x xs ih =>
      exact (insertOrdered_perm key x (sortByKey key xs)).trans (List.Perm.cons x ih)

theorem insertOrdered_pairwise (key : α → Int) (x : α) (l : List α)
    (h : l.Pairwise (fun a b => key a ≤ key b)) :
    (insertOrdered key x l).Pairwise (fun a b => key a ≤ key b) := by
  induction l with
  | nil => simp [insertOrdered]
  | cons y ys ih =>
      rcases List.pairwise_cons.mp h with ⟨hy, hys⟩
      simp only [insertOrdered]
      split
      · rename_i hle
        refine List.pairwise_cons.mpr ⟨?_, ih hys⟩
        intro z hz
        have hz2 : z ∈ x :: ys := (insertOrdered_perm key x ys).mem_iff.mp hz
        rcases List.mem_cons.mp hz2 with hz2 | hz2
        · rw [hz2]; exact hle
        · exact hy z hz2
      · rename_i hgt
        have hxy : key x ≤ key y := by omega
        refine List.pairwise_cons.mpr ⟨?_, h⟩
        intro z hz
        rcases List.mem_cons.mp hz with hz | hz
        · rw [hz]; exact hxy
        · exact le_trans hxy (hy z hz)

theorem sortByKey_pairwise (key : α → Int) (l : List α) :
    (sortByKey key l).Pairwise (fun a b => key a ≤ key b) := by
  induction l with
  | nil => simp [sortByKey]
  | cons x xs ih => exact insertOrdered_pairwise key x (sortByKey key xs) ih

/-
Miscellaneous helper lemmas.
-/

theorem string_ne_of_take_ne (s t : String) (n : Nat)
    (h : s.data.take n ≠ t.data.take n) : s ≠ t := by
  intro he
  exact h (by rw [he])

theorem append_ne_empty_left (s t : String) (h : s ≠ "") : s ++ t ≠ "" := by
  intro he
  apply h
  have hl := congrArg String.length he
  rw [String.length_append] at hl
  have : s.length = 0 := by simpa using Nat.eq_zero_of_add_eq_zero_right hl
  cases s with
  | mk data =>
      cases data with
      | nil => rfl
      | cons c cs => simp [String.length] at this

theorem find_by_name (l : List ToolConfig) (t : ToolConfig)
    (hnod : (l.map ToolConfig.tool_name).Nodup) (ht : t ∈ l) :
    l.find? (fun c => c.tool_name = t.tool_name) = some t := by
  induction l with
  | nil => simp at ht
  | cons c rest ih =>
      simp only [List.map_cons, List.nodup_cons] at hnod
      rcases List.mem_cons.mp ht with ht | ht
      · rw [ht]
        simp [List.find?]
      · have hne : c.tool_name ≠ t.tool_name := by
          intro he
          exact hnod.1 (he ▸ List.mem_map_of_mem ToolConfig.tool_name ht)
        rw [List.find?_cons_of_neg _ (by simpa using hne)]
        exact ih hnod.2 ht

theorem before_of_append {α : Type} [DecidableEq α] (A B : List α) (pa : α → Bool) (c : α)
    (hA : c ∉ A) (hB : ∀ x ∈ B, pa x = false) :
    ∀ (i j : Nat) (x : α), (A ++ B)[i]? = some x → pa x = true → (A ++ B)[j]? = some c → i < j := by
  intro i j x hi hpa hj
  have hiA : i < A.length := by
    by_contra hge
    have hge2 : A.length ≤ i := Nat.le_of_not_lt hge
    rw [List.getElem?_append_right hge2] at hi
    have hxB : x ∈ B := List.getElem?_mem hi
    rw [hB x hxB] at hpa
    exact Bool.false_ne_true hpa
  have hjB : A.length ≤ j := by
    by_contra hlt
    have hlt2 : j < A.length := Nat.lt_of_not_le hlt
    rw [List.getElem?_append_left hlt2] at hj
    exact hA (List.getElem?_mem hj)
  omega

theorem before_of_append_pair {α : Type} [DecidableEq α] (A B : List α) (c1 c2 : α)
    (hA : c2 ∉ A) (hB : c1 ∉ B) :
    ∀ (i j : Nat), (A ++ B)[i]? = some c1 → (A ++ B)[j]? = some c2 → i < j := by
  intro i j hi hj
  have hiA : i < A.length := by
    by_contra hge
    have hge2 : A.length ≤ i := Nat.le_of_not_lt hge
    rw [List.getElem?_append_right hge2] at hi
    exact hB (List.getElem?_mem hi)
  have hjB : A.length ≤ j := by
    by_contra hlt
    have hlt2 : j < A.length := Nat.lt_of_not_le hlt
    rw [List.getElem?_append_left hlt2] at hj
    exact hA (List.getElem?_mem hj)
  omega

theorem session_error_reason_ne (m : String) :
    "Session validation error: " ++ m ≠ "Stored credentials have expired" := by
  apply string_ne_of_take_ne _ _ 3
  rw [String.data_append]
  rw [List.take_append_of_le_length (by decide)]
  decide

/-
Claim theorems.
-/

/-- C7: for every sequence of registerComponent/unregisterComponent calls,
each capability name maps to at most one registration (the key list of
every reachable registry state is duplicate-free), and registering r
under a name leaves the registry holding r — and only r — under that
name, so a later registration under the same name as an earlier one wins;
getComponentRegistry then contains the later registration. -/
theorem component_registry_last_writer_wins (α : Type) (ops : List (RegistryOp α))
    (r : ComponentReg α) :
    ((applyRegistryOps ops).map Prod.fst).Nodup
    ∧ mapGet (registerComponent (applyRegistryOps ops) r) r.name = some r
    ∧ (∀ p ∈ registerComponent (applyRegistryOps ops) r, p.1 = r.name → p.2 = r)
    ∧ r ∈ getComponentRegistry (registerComponent (applyRegistryOps ops) r) := by
  refine ⟨nodup_keys_applyRegistryOps ops, mapGet_mapSet_self _ _ _,
    mem_mapSet_value_eq _ _ _ (nodup_keys_applyRegistryOps ops), ?_⟩
  have h := mem_of_mapGet _ _ _ (mapGet_mapSet_self (applyRegistryOps ops) r.name r)
  exact List.mem_map_of_mem _ h

/-- Witness for C7: after registering ("menu", payload 1) and then
("menu", payload 2), the registry maps "menu" to the second registration
and getComponentRegistry contains it. -/
theorem component_registry_last_writer_wins_witness :
    mapGet (registerComponent
        (applyRegistryOps [RegistryOp.register (ComponentReg.mk "menu" (1 : Nat))])
        (ComponentReg.mk "menu" 2)) "menu" = some (ComponentReg.mk "menu" 2)
    ∧ ComponentReg.mk "menu" (2 : Nat) ∈ getComponentRegistry (registerComponent
        (applyRegistryOps [RegistryOp.register (ComponentReg.mk "menu" (1 : Nat))])
        (ComponentReg.mk "menu" 2)) := by
  have h := component_registry_last_writer_wins Nat
    [RegistryOp.register (ComponentReg.mk "menu" 1)] (ComponentReg.mk "menu" 2)
  exact ⟨h.2.1, h.2.2.2⟩

/-- C9: when the registry snapshot holds no capability named "auth", all
four auth accessors are total and return the null defaults: null
credentials, a null-filled token record, a null JWT and null user info. -/
theorem auth_accessors_total_when_absent (components : List (String × AuthMethods))
    (h : "auth" ∉ components.map Prod.fst) :
    authGetCredentials components = JsValue.null
    ∧ authGetTokens components = Tokens.mk JsValue.null JsValue.null JsValue.null
    ∧ authGetJWT components = JsValue.null
    ∧ authGetUserInfo components = JsValue.null := by
  have hg : mapGet components "auth" = none := mapGet_eq_none components "auth" h
  exact ⟨by simp [authGetCredentials, hg], by simp [authGetTokens, hg],
    by simp [authGetJWT, hg], by simp [authGetUserInfo, hg]⟩

/-- Witness for C9: a registry with only a menu component yields the null
defaults from every auth accessor. -/
theorem auth_accessors_total_when_absent_witness :
    authGetCredentials [("menu", AuthMethods.mk none none none none)] = JsValue.null
    ∧ authGetTokens [("menu", AuthMethods.mk none none none none)]
        = Tokens.mk JsValue.null JsValue.null JsValue.null
    ∧ authGetJWT [("menu", AuthMethods.mk none none none none)] = JsValue.null
    ∧ authGetUserInfo [("menu", AuthMethods.mk none none none none)] = JsValue.null := by
  exact auth_accessors_total_when_absent [("menu", AuthMethods.mk none none none none)]
    (by simp)

/-- C4: waitForComponentsReady always resolves, never rejects and never
hangs: its poll count is at most maxAttempts = 50 (about 5 s at 100 ms
per poll) for every behaviour of the registry; it resolves immediately
(0 polls, nothing logged) when all expected names are registered at the
initial check, and when some expected capability never registers it
resolves after exactly 50 polls, logging the missing names. -/
theorem wait_for_components_always_resolves (regAt : Nat → List String) :
    (waitForComponentsReady regAt).polls ≤ 50
    ∧ (areComponentsReady (regAt 0) = true →
        waitForComponentsReady regAt = WaitOutcome.mk 0 [])
    ∧ ((∀ n, areComponentsReady (regAt n) = false) →
        waitForComponentsReady regAt = WaitOutcome.mk 50 (missingComponents (regAt 50))) := by
  refine ⟨?_, ?_, ?_⟩
  · unfold waitForComponentsReady
    split
    · simp
    · exact pollTicks_polls_le regAt 50 1 (by omega) (by omega)
  · intro h
    simp [waitForComponentsReady, h]
  · intro h
    unfold waitForComponentsReady
    rw [if_neg (by simp [h 0])]
    exact pollTicks_never_ready regAt h 50 1 rfl (by omega)

/-- Witness for C4: with all six components registered the wait resolves
at once; with only "app" ever registered it resolves after 50 polls,
logging the five missing names. -/
theorem wait_for_components_always_resolves_witness :
    waitForComponentsReady (fun _ => ["app", "chat", "ui", "auth", "menu", "cart"])
      = WaitOutcome.mk 0 []
    ∧ waitForComponentsReady (fun _ => ["app"])
      = WaitOutcome.mk 50 ["chat", "ui", "auth", "menu", "cart"] := by
  constructor
  · exact (wait_for_components_always_resolves _).2.1 (by decide)
  · have h := (wait_for_components_always_resolves (fun _ => ["app"])).2.2 (fun n => by decide)
    rw [h]
    decide

/-- C2, counterexample: it is false that the identifiers visible to the
executed script are exactly the supplied binding names. The compiled
function additionally sees the implicit trailing parameter paramNames and
the whole JavaScript global scope, and its result can depend on global
state, so two runs with equal bindings can differ. -/
theorem sandbox_scope_exact_bindings_counterexample :
    (¬ ∀ (bindings globalScope : List (String × JsValue)) (x : String),
        (resolveIdent (executeScriptScope bindings globalScope) x).isSome = true ↔
          x ∈ bindings.map Prod.fst)
    ∧ resolveIdent (executeScriptScope [("input", JsValue.str "a")] []) "paramNames"
        = some (JsValue.strArr ["input"])
    ∧ resolveIdent (executeScriptScope [] [("fetch", JsValue.num 1)]) "fetch"
        = some (JsValue.num 1)
    ∧ resolveIdent (executeScriptScope [] [("fetch", JsValue.num 1)]) "fetch"
        ≠ resolveIdent (executeScriptScope [] [("fetch", JsValue.num 2)]) "fetch" := by
  refine ⟨?_, by decide, by decide, by decide⟩
  intro h
  have h2 := (h [("input", JsValue.str "a")] [] "paramNames").mp (by decide)
  exact absurd h2 (by decide)

/-- C2, amended: an identifier resolves in the compiled script exactly
when it is a supplied binding name, the implicit paramNames parameter, or
a global; in particular any other identifier — including every local of
the enclosing ToolExecutor scope — is unreachable (ReferenceError), and
the resolution depends only on the bindings and the global scope. -/
theorem sandbox_scope_amended (bindings globalScope : List (String × JsValue)) (x : String) :
    ((resolveIdent (executeScriptScope bindings globalScope) x).isSome = true ↔
      (x ∈ bindings.map Prod.fst ∨ x = "paramNames" ∨ x ∈ globalScope.map Prod.fst))
    ∧ (x ∉ bindings.map Prod.fst → x ≠ "paramNames" → x ∉ globalScope.map Prod.fst →
        resolveIdent (executeScriptScope bindings globalScope) x = none) := by
  have hkeys := executeScriptParams_keys bindings
  constructor
  · simp only [executeScriptScope]
    rw [resolveIdent_pair]
    cases hp : mapGet (executeScriptParams bindings) x with
    | some v =>
        simp only [Option.isSome_some, true_iff]
        have hmem : x ∈ (executeScriptParams bindings).map Prod.fst :=
          (mapGet_isSome_iff _ _).mp (by rw [hp]; rfl)
        rw [hkeys] at hmem
        rcases List.mem_append.mp hmem with hm | hm
        · exact Or.inl hm
        · exact Or.inr (Or.inl (by simpa using hm))
    | none =>
        have hx : x ∉ (executeScriptParams bindings).map Prod.fst := by
          intro hmem
          have hs := (mapGet_isSome_iff (executeScriptParams bindings) x).mpr hmem
          rw [hp] at hs
          simp at hs
        rw [hkeys] at hx
        simp only [List.mem_append, List.mem_singleton, not_or] at hx
        constructor
        · intro hs
          exact Or.inr (Or.inr ((mapGet_isSome_iff globalScope x).mp hs))
        · rintro (hm | hm | hm)
          · exact absurd hm hx.1
          · exact absurd hm hx.2
          · exact (mapGet_isSome_iff globalScope x).mpr hm
  · intro h1 h2 h3
    simp only [executeScriptScope]
    rw [resolveIdent_pair]
    have hp : mapGet (executeScriptParams bindings) x = none := by
      apply mapGet_eq_none
      rw [hkeys]
      simp only [List.mem_append, List.mem_singleton, not_or]
      exact ⟨h1, h2⟩
    rw [hp]
    exact mapGet_eq_none globalScope x h3

/-- Witness for C2 amended: an identifier that is neither a binding, nor
paramNames, nor a global — such as a local variable of the enclosing
executor — does not resolve. -/
theorem sandbox_scope_amended_witness :
    resolveIdent (executeScriptScope [("sessionId", JsValue.str "s")]
      [("window", JsValue.num 0)]) "toolContext" = none := by
  exact (sandbox_scope_amended [("sessionId", JsValue.str "s")]
    [("window", JsValue.num 0)] "toolContext").2 (by decide) (by decide) (by decide)

/-- C10: SettingsManager.getCredentials never returns expired
credentials: a stored record whose expiration is at or before the
current instant is removed from session storage and null is returned;
every non-null result is unexpired at the read instant; consequently
validateCognitoSession, evaluated at one instant, can never produce the
reason "Stored credentials have expired" — its dedicated expired branch
only sees records getCredentials already vetted. -/
theorem getCredentials_never_returns_expired (store : CredStore) (now : Int) :
    (∀ c e, store = some (some c) → c.expiration = some e → e ≤ now →
        getCredentialsAt store now = (none, none))
    ∧ (∀ c2, (getCredentialsAt store now).1 = some c2 →
        ∀ e2, c2.expiration = some e2 → now < e2)
    ∧ (∀ amplify, (validateCognitoSession store now now amplify).2
        ≠ "Stored credentials have expired") := by
  have key : ∀ c2, (getCredentialsAt store now).1 = some c2 →
      ∀ e2, c2.expiration = some e2 → now < e2 := by
    intro c2 hc2 e2 he2
    match store with
    | none => simp [getCredentialsAt] at hc2
    | some none => simp [getCredentialsAt] at hc2
    | some (some c) =>
        cases hexp : c.expiration with
        | none =>
            simp only [getCredentialsAt, hexp, Option.some.injEq] at hc2
            rw [← hc2, hexp] at he2
            exact absurd he2 (by simp)
        | some e =>
            simp only [getCredentialsAt, hexp] at hc2
            by_cases hle : e ≤ now
            · rw [if_pos hle] at hc2
              simp at hc2
            · rw [if_neg hle] at hc2
              simp only [Option.some.injEq] at hc2
              rw [← hc2, hexp] at he2
              have he3 : e = e2 := by injection he2
              omega
  refine ⟨?_, key, ?_⟩
  · intro c e hs he hle
    subst hs
    simp [getCredentialsAt, he, hle]
  · intro amplify
    cases hg : (getCredentialsAt store now).1 with
    | none =>
        simp only [validateCognitoSession, hg]
        decide
    | some c =>
        have hnotexp : (match c.expiration with
            | some e => decide (e ≤ now)
            | none => false) = false := by
          cases hexp : c.expiration with
          | none => rfl
          | some e =>
              have := key c hg e hexp
              simp only [decide_eq_false_iff_not]
              omega
        simp only [validateCognitoSession, hg, hnotexp, Bool.false_eq_true, if_false]
        cases amplify with
        | throws t => exact session_error_reason_ne (thrownMessage t)
        | session hasCredentials hasIdToken =>
            cases hasCredentials <;> cases hasIdToken <;> simp

/-- Witness for C10: a record expired at instant 100 read at instant 200
is deleted and null is returned. -/
theorem getCredentials_never_returns_expired_witness :
    getCredentialsAt (some (some (CredRecord.mk "AK" "SK" "ST" (some 100)))) 200
      = (none, none) := by
  exact (getCredentials_never_returns_expired
    (some (some (CredRecord.mk "AK" "SK" "ST" (some 100)))) 200).1
    (CredRecord.mk "AK" "SK" "ST" (some 100)) 100 rfl rfl (by decide)

/-- C3, counterexample: with a stored credential record whose expiration
(100) is in the past (now = 200), executeInitializationTools does skip
with executed = false and runs no action, but the recorded reason is
"No credentials found in session storage" — not "Stored credentials have
expired" as claimed — because getCredentials already deleted the expired
record and returned null. -/
theorem init_tools_expired_reason_counterexample :
    executeInitializationTools (fun _ => none)
        (some (some (CredRecord.mk "AK" "SK" "ST" (some 100)))) 200 200
        (AmplifyOutcome.session true true)
        (AgentConfig.mk "p" [] [ToolConfig.mk "boot" "d" "x" "s" true 1])
      = (InitToolsResult.mk false "No credentials found in session storage", [])
    ∧ "No credentials found in session storage" ≠ "Stored credentials have expired" := by
  exact ⟨by decide, by decide⟩

/-- C3, amended: for every stored credential record whose expiration is
in the past, executeInitializationTools returns without executing any
catalog tool's action (empty invocation trace), with executed = false
and reason "No credentials found in session storage" (the expired record
is cleared by getCredentials, so the dedicated expired-reason branch is
bypassed). -/
theorem init_tools_expired_skip_amended (parse : String → Option Json) (store : CredStore)
    (now1 now2 : Int) (amplify : AmplifyOutcome) (cfg : AgentConfig) (c : CredRecord)
    (e : Int) (hs : store = some (some c)) (he : c.expiration = some e) (hlt : e < now1) :
    executeInitializationTools parse store now1 now2 amplify cfg
      = (InitToolsResult.mk false "No credentials found in session storage", []) := by
  subst hs
  have hle : e ≤ now1 := le_of_lt hlt
  simp [executeInitializationTools, validateCognitoSession, getCredentialsAt, he, hle]

/-- Witness for C3 amended: a concrete expired record (expiration 5, now
10) with a configured init tool yields the skip result and an empty
trace. -/
theorem init_tools_expired_skip_amended_witness :
    executeInitializationTools (fun _ => none)
        (some (some (CredRecord.mk "A" "S" "T" (some 5)))) 10 11
        (AmplifyOutcome.session true true)
        (AgentConfig.mk "p" [] [ToolConfig.mk "boot" "d" "x" "s" true 1])
      = (InitToolsResult.mk false "No credentials found in session storage", []) := by
  exact init_tools_expired_skip_amended (fun _ => none) _ 10 11
    (AmplifyOutcome.session true true)
    (AgentConfig.mk "p" [] [ToolConfig.mk "boot" "d" "x" "s" true 1])
    (CredRecord.mk "A" "S" "T" (some 5)) 5 rfl rfl (by decide)

/-- C1, counterexample: when the execution context is not set, the tool
action does throw (its promise rejects with the context-not-set error)
instead of returning a structured JSON payload — even when the script
itself would have succeeded — refuting "the action never throws ...
including ... a missing execution context". -/
theorem tool_action_missing_context_counterexample :
    createToolActionRun none (AgentConfig.mk "p" [] []) (fun _ => none)
        (Except.ok (RawResult.str "fine")) "myTool" "sess-1" "in" true
      = Except.error (JsThrown.err contextNotSetMsg)
    ∧ ∀ s : Option String,
        createToolActionRun none (AgentConfig.mk "p" [] []) (fun _ => none)
          (Except.ok (RawResult.str "fine")) "myTool" "sess-1" "in" true ≠ Except.ok s := by
  constructor
  · rfl
  · intro s h
    exact Except.noConfusion h

/-- C1, amended: once an execution context is set, the action never
throws (it always resolves), and on any failure — a script compile or
runtime error, or a result-coercion error — it resolves with the
stringified payload whose fields are error:true, a non-empty message,
the invoked toolName and the sessionId (assuming the host TypeError
raised by JSON.stringify carries a non-empty message, as every real
engine does). Only a missing execution context makes the action throw. -/
theorem tool_action_failure_payload_amended (ctx : ExecContext) (cfg : AgentConfig)
    (parse : String → Option Json) (scriptOutcome : Except JsThrown RawResult)
    (toolName sessionId input : String) (trig : Bool)
    (hhost : ∀ m, scriptOutcome = Except.ok (RawResult.circular m) → m ≠ "") :
    (∃ s, createToolActionRun (some ctx) cfg parse scriptOutcome toolName sessionId input trig
        = Except.ok s)
    ∧ (((∃ t, scriptOutcome = Except.error t)
        ∨ (∃ m, scriptOutcome = Except.ok (RawResult.circular m))) →
        ∃ msg, msg ≠ ""
          ∧ createToolActionRun (some ctx) cfg parse scriptOutcome toolName sessionId input trig
              = Except.ok (some (stringifyJson (errorPayload msg toolName sessionId)))
          ∧ (errorPayload msg toolName sessionId).getField "error" = some (Json.bool true)
          ∧ (errorPayload msg toolName sessionId).getField "message" = some (Json.str msg)
          ∧ (errorPayload msg toolName sessionId).getField "toolName" = some (Json.str toolName)
          ∧ (errorPayload msg toolName sessionId).getField "sessionId"
              = some (Json.str sessionId)) := by
  cases scriptOutcome with
  | error t =>
      refine ⟨⟨some (stringifyJson (errorPayload ("Script execution failed: " ++ thrownMessage t)
        toolName sessionId)), rfl⟩, ?_⟩
      intro _
      exact ⟨"Script execution failed: " ++ thrownMessage t,
        append_ne_empty_left _ _ (by decide), rfl, rfl, rfl, rfl, rfl⟩
  | ok v =>
      cases v with
      | str s =>
          refine ⟨⟨some s, rfl⟩, ?_⟩
          rintro (⟨t, ht⟩ | ⟨m, hm⟩)
          · exact absurd ht (by simp)
          · exact absurd hm (by simp)
      | json j =>
          refine ⟨⟨some (stringifyJson j), rfl⟩, ?_⟩
          rintro (⟨t, ht⟩ | ⟨m, hm⟩)
          · exact absurd ht (by simp)
          · exact absurd hm (by simp)
      | undef =>
          refine ⟨⟨none, rfl⟩, ?_⟩
          rintro (⟨t, ht⟩ | ⟨m, hm⟩)
          · exact absurd ht (by simp)
          · exact absurd hm (by simp)
      | circular m =>
          have hm : m ≠ "" := hhost m rfl
          exact ⟨⟨some (stringifyJson (errorPayload m toolName sessionId)), rfl⟩,
            fun _ => ⟨m, hm, rfl, rfl, rfl, rfl, rfl⟩⟩

/-- Witness for C1 amended: with a context set and a script that throws
Error("boom"), the action resolves (no rejection) and carries the
structured payload. -/
theorem tool_action_failure_payload_amended_witness :
    ∃ s, createToolActionRun (some (ExecContext.mk [])) (AgentConfig.mk "p" [] [])
        (fun _ => none) (Except.error (JsThrown.err "boom")) "t1" "s1" "i" true
      = Except.ok s := by
  exact (tool_action_failure_payload_amended (ExecContext.mk []) (AgentConfig.mk "p" [] [])
    (fun _ => none) (Except.error (JsThrown.err "boom")) "t1" "s1" "i" true
    (fun m h => absurd h (by simp))).1

/-- C5: a ToolDefinition whose inputSchemaText fails to parse is still
loaded: its processed form keeps its name, description and script (hence
its action is still built from its own script) and carries the permissive
default schema; it appears in the loaded catalog, which is a permutation
of the independent per-tool processing of the whole catalog — so no other
tool is dropped or altered because of the malformed entry. -/
theorem malformed_schema_tool_still_loads (parse : String → Option Json)
    (tools : List ToolConfig) (t : ToolConfig) (ht : t ∈ tools)
    (hbad : parse t.inputSchemaJson = none) :
    processTool parse t
        = ProcessedTool.mk t.tool_name t.description (stringifyJson defaultSchema) t.script
    ∧ processTool parse t ∈ loadToolsFromConfig parse tools
    ∧ (loadToolsFromConfig parse tools).Perm (tools.map (processTool parse))
    ∧ (loadToolsFromConfig parse tools).length = tools.length
    ∧ (∀ u ∈ tools, processTool parse u ∈ loadToolsFromConfig parse tools) := by
  have hperm : (loadToolsFromConfig parse tools).Perm (tools.map (processTool parse)) :=
    sortByKey_perm _ _
  refine ⟨?_, ?_, hperm, ?_, ?_⟩
  · simp [processTool, hbad]
  · exact hperm.mem_iff.mpr (List.mem_map_of_mem _ ht)
  · rw [hperm.length_eq, List.length_map]
  · intro u hu
    exact hperm.mem_iff.mpr (List.mem_map_of_mem _ hu)

/-- Witness for C5: a catalog with one malformed-schema tool and one good
tool loads both; the malformed one carries the stringified default
schema. -/
theorem malformed_schema_tool_still_loads_witness :
    processTool (fun _ => none) (ToolConfig.mk "badTool" "d" "not json" "code" false 1)
      = ProcessedTool.mk "badTool" "d" (stringifyJson defaultSchema) "code"
    ∧ processTool (fun _ => none) (ToolConfig.mk "badTool" "d" "not json" "code" false 1)
        ∈ loadToolsFromConfig (fun _ => none)
            [ToolConfig.mk "badTool" "d" "not json" "code" false 1,
             ToolConfig.mk "good" "d" "x" "y" false 2]
    ∧ (loadToolsFromConfig (fun _ => none)
          [ToolConfig.mk "badTool" "d" "not json" "code" false 1,
           ToolConfig.mk "good" "d" "x" "y" false 2]).length = 2 := by
  have h := malformed_schema_tool_still_loads (fun _ => none)
    [ToolConfig.mk "badTool" "d" "not json" "code" false 1,
     ToolConfig.mk "good" "d" "x" "y" false 2]
    (ToolConfig.mk "badTool" "d" "not json" "code" false 1) (by simp) rfl
  exact ⟨h.1, h.2.1, h.2.2.2.1⟩

/-- C8: when the credential gate passes, the initialization-tool
invocation trace is ordered by nondecreasing configured order, and for
two init tools with order 1 and order 2 (in a catalog with unique tool
names) the order-1 tool's action is invoked strictly before the
order-2 tool's. -/
theorem init_tools_execute_in_order (parse : String → Option Json) (store : CredStore)
    (now1 now2 : Int) (amplify : AmplifyOutcome) (cfg : AgentConfig) (t1 t2 : ToolConfig)
    (hv : (validateCognitoSession store now1 now2 amplify).1 = true)
    (hnod : (cfg.tools.map ToolConfig.tool_name).Nodup)
    (h1 : t1 ∈ cfg.tools) (h2 : t2 ∈ cfg.tools)
    (hi1 : t1.run_after_app_init = true) (hi2 : t2.run_after_app_init = true)
    (ho1 : t1.order = 1) (ho2 : t2.order = 2) :
    (executeInitializationTools parse store now1 now2 amplify cfg).2.Pairwise
        (fun a b => orderOf cfg.tools a ≤ orderOf cfg.tools b)
    ∧ ∃ (i j : Nat), i < j
        ∧ (executeInitializationTools parse store now1 now2 amplify cfg).2[i]?
            = some t1.tool_name
        ∧ (executeInitializationTools parse store now1 now2 amplify cfg).2[j]?
            = some t2.tool_name := by
  have hmem : ∀ t : ToolConfig, t ∈ cfg.tools → t.run_after_app_init = true →
      processTool parse t ∈ getInitializationTools parse cfg.tools := by
    intro t ht hia
    refine List.mem_filter.mpr ⟨?_, ?_⟩
    · exact (sortByKey_perm _ _).mem_iff.mpr (List.mem_map_of_mem _ ht)
    · have hf : cfg.tools.find? (fun c => c.tool_name = (processTool parse t).toolname)
          = some t := find_by_name cfg.tools t hnod ht
      simp only [hf]
      exact hia
  have hmem1 := hmem t1 h1 hi1
  have hmem2 := hmem t2 h2 hi2
  have hvne : ¬ ((validateCognitoSession store now1 now2 amplify).1 = false) := by
    rw [hv]
    simp
  have hne : ¬ ((getInitializationTools parse cfg.tools).isEmpty = true) := by
    intro hie
    rw [List.isEmpty_iff.mp hie] at hmem1
    exact absurd hmem1 (List.not_mem_nil _)
  have hrun : executeInitializationTools parse store now1 now2 amplify cfg
      = (InitToolsResult.mk true "All tools completed successfully",
         (sortByKey (fun pt => orderOf cfg.tools pt.toolname)
           (getInitializationTools parse cfg.tools)).map (fun pt => pt.toolname)) := by
    unfold executeInitializationTools
    rw [if_neg hvne, if_neg hne]
  rw [hrun]
  have hpair : ((sortByKey (fun pt => orderOf cfg.tools pt.toolname)
        (getInitializationTools parse cfg.tools)).map
        (fun pt : ProcessedTool => pt.toolname)).Pairwise
        (fun a b => orderOf cfg.tools a ≤ orderOf cfg.tools b) :=
    List.Pairwise.map (fun pt : ProcessedTool => pt.toolname) (fun a b hab => hab)
      (sortByKey_pairwise (fun pt => orderOf cfg.tools pt.toolname)
        (getInitializationTools parse cfg.tools))
  refine ⟨hpair, ?_⟩
  have horder : ∀ t : ToolConfig, t ∈ cfg.tools → orderOf cfg.tools t.tool_name = t.order := by
    intro t ht
    unfold orderOf
    rw [find_by_name cfg.tools t hnod ht]
  have hms : ∀ t : ToolConfig, t ∈ cfg.tools → t.run_after_app_init = true →
      t.tool_name ∈ (sortByKey (fun pt => orderOf cfg.tools pt.toolname)
        (getInitializationTools parse cfg.tools)).map (fun pt => pt.toolname) := by
    intro t ht hia
    exact List.mem_map_of_mem _ ((sortByKey_perm _ _).mem_iff.mpr (hmem t ht hia))
  obtain ⟨i, hi⟩ := List.mem_iff_getElem?.mp (hms t1 h1 hi1)
  obtain ⟨j, hj⟩ := List.mem_iff_getElem?.mp (hms t2 h2 hi2)
  have hnn : t1.tool_name ≠ t2.tool_name := by
    intro he
    have := List.inj_on_of_nodup_map hnod h1 h2 he
    rw [this] at ho1
    rw [ho1] at ho2
    exact absurd ho2 (by decide)
  have hij : i ≠ j := by
    intro he
    rw [he, hj] at hi
    injection hi with hv2
    exact hnn hv2.symm
  rcases Nat.lt_or_ge i j with hlt | hge
  · exact ⟨i, j, hlt, hi, hj⟩
  · exfalso
    have hjlt : j < i := by omega
    obtain ⟨hilen, hival⟩ := List.getElem?_eq_some.mp hi
    obtain ⟨hjlen, hjval⟩ := List.getElem?_eq_some.mp hj
    have hle := List.pairwise_iff_getElem.mp hpair j i hjlen hilen hjlt
    rw [hival, hjval, horder t1 h1, horder t2 h2, ho1, ho2] at hle
    omega

/-- Witness for C8: a catalog listing the order-2 tool before the order-1
tool still invokes the order-1 tool first. -/
theorem init_tools_execute_in_order_witness :
    ∃ (i j : Nat), i < j
      ∧ (executeInitializationTools (fun _ => none)
          (some (some (CredRecord.mk "A" "S" "T" none))) 0 0
          (AmplifyOutcome.session true true)
          (AgentConfig.mk "p" []
            [ToolConfig.mk "second" "d" "x" "y" true 2,
             ToolConfig.mk "first" "d" "x" "y" true 1])).2[i]? = some "first"
      ∧ (executeInitializationTools (fun _ => none)
          (some (some (CredRecord.mk "A" "S" "T" none))) 0 0
          (AmplifyOutcome.session true true)
          (AgentConfig.mk "p" []
            [ToolConfig.mk "second" "d" "x" "y" true 2,
             ToolConfig.mk "first" "d" "x" "y" true 1])).2[j]? = some "second" := by
  have h := init_tools_execute_in_order (fun _ => none)
    (some (some (CredRecord.mk "A" "S" "T" none))) 0 0
    (AmplifyOutcome.session true true)
    (AgentConfig.mk "p" []
      [ToolConfig.mk "second" "d" "x" "y" true 2,
       ToolConfig.mk "first" "d" "x" "y" true 1])
    (ToolConfig.mk "first" "d" "x" "y" true 1)
    (ToolConfig.mk "second" "d" "x" "y" true 2)
    (by decide) (by decide) (by decide) (by decide) rfl rfl rfl rfl
  exact h.2

/-- C6: in the session handshake trace, the setTool registrations are
exactly one per entry of the initiateSession tool list, in list order;
initiateSession is called on the client exactly once and strictly after
every setTool; the system prompt is sent exactly once, strictly after the
sessionInitiated event, strictly after the promptStart setup call, and
strictly before the audio channel is opened. -/
theorem handshake_tools_before_initiate (tools : List ProcessedTool) (prompt : String) :
    (handshakeTrace tools prompt).filter isSetTool
        = tools.map (fun t => HSItem.callSetTool t.toolname)
    ∧ (handshakeTrace tools prompt).count HSItem.callInitiateSession = 1
    ∧ (handshakeTrace tools prompt).count (HSItem.callSetupSystemPrompt prompt) = 1
    ∧ (∀ (i j : Nat) (x : HSItem), (handshakeTrace tools prompt)[i]? = some x →
        isSetTool x = true →
        (handshakeTrace tools prompt)[j]? = some HSItem.callInitiateSession → i < j)
    ∧ (∀ (i j : Nat), (handshakeTrace tools prompt)[i]? = some HSItem.evSessionInitiated →
        (handshakeTrace tools prompt)[j]? = some (HSItem.callSetupSystemPrompt prompt) →
        i < j)
    ∧ (∀ (i j : Nat), (handshakeTrace tools prompt)[i]? = some HSItem.callSetupPromptStart →
        (handshakeTrace tools prompt)[j]? = some (HSItem.callSetupSystemPrompt prompt) →
        i < j)
    ∧ (∀ (i j : Nat),
        (handshakeTrace tools prompt)[i]? = some (HSItem.callSetupSystemPrompt prompt) →
        (handshakeTrace tools prompt)[j]? = some HSItem.callSetupStartAudio → i < j) := by
  refine ⟨?_, ?_, ?_, ?_, ?_, ?_, ?_⟩
  · have hpred : (isSetTool ∘ fun t : ProcessedTool => HSItem.callSetTool t.toolname)
        = fun _ => true := funext (fun t => rfl)
    have hstep : List.filter isSetTool (handshakeTrace tools prompt)
        = List.filter isSetTool (tools.map (fun t => HSItem.callSetTool t.toolname)
            ++ [HSItem.callInitiateSession, HSItem.evSessionInitiated, HSItem.evPromptStart,
                HSItem.callSetupPromptStart, HSItem.evSystemPrompt prompt,
                HSItem.callSetupSystemPrompt prompt, HSItem.evAudioStart,
                HSItem.callSetupStartAudio]) := rfl
    rw [hstep, List.filter_append, List.filter_map, hpred, List.filter_true]
    rw [show List.filter isSetTool [HSItem.callInitiateSession, HSItem.evSessionInitiated,
        HSItem.evPromptStart, HSItem.callSetupPromptStart, HSItem.evSystemPrompt prompt,
        HSItem.callSetupSystemPrompt prompt, HSItem.evAudioStart,
        HSItem.callSetupStartAudio] = [] from rfl, List.append_nil]
  · simp [handshakeTrace, List.count_append, List.count_cons, List.count_eq_zero, List.mem_map]
  · simp [handshakeTrace, List.count_append, List.count_cons, List.count_eq_zero, List.mem_map]
  · intro i j x hi hpa hj
    simp only [handshakeTrace] at hi hj
    refine before_of_append _ _ isSetTool HSItem.callInitiateSession ?_ ?_ i j x hi hpa hj
    · simp [List.mem_map]
    · intro y hy
      rcases List.mem_cons.mp hy with h | hy
      · rw [h]; rfl
      · rcases List.mem_cons.mp hy with h | hy
        · rw [h]; rfl
        · rcases List.mem_cons.mp hy with h | hy
          · rw [h]; rfl
          · rcases List.mem_cons.mp hy with h | hy
            · rw [h]; rfl
            · rcases List.mem_cons.mp hy with h | hy
              · rw [h]; rfl
              · rcases List.mem_cons.mp hy with h | hy
                · rw [h]; rfl
                · rcases List.mem_cons.mp hy with h | hy
                  · rw [h]; rfl
                  · rcases List.mem_cons.mp hy with h | hy
                    · rw [h]; rfl
                    · exact absurd hy (List.not_mem_nil _)
  · intro i j hi hj
    have htr : handshakeTrace tools prompt =
        ([HSItem.evCreateSession, HSItem.callCreateStreamSession,
          HSItem.evSessionCreated, HSItem.evInitiateSession]
         ++ tools.map (fun t => HSItem.callSetTool t.toolname)
         ++ [HSItem.callInitiateSession, HSItem.evSessionInitiated,
             HSItem.evPromptStart, HSItem.callSetupPromptStart,
             HSItem.evSystemPrompt prompt])
        ++ [HSItem.callSetupSystemPrompt prompt, HSItem.evAudioStart,
            HSItem.callSetupStartAudio] := by
      simp [handshakeTrace]
    rw [htr] at hi hj
    refine before_of_append_pair _ _ HSItem.evSessionInitiated
      (HSItem.callSetupSystemPrompt prompt) ?_ ?_ i j hi hj
    · simp [List.mem_map]
    · simp
  · intro i j hi hj
    have htr : handshakeTrace tools prompt =
        ([HSItem.evCreateSession, HSItem.callCreateStreamSession,
          HSItem.evSessionCreated, HSItem.evInitiateSession]
         ++ tools.map (fun t => HSItem.callSetTool t.toolname)
         ++ [HSItem.callInitiateSession, HSItem.evSessionInitiated,
             HSItem.evPromptStart, HSItem.callSetupPromptStart,
             HSItem.evSystemPrompt prompt])
        ++ [HSItem.callSetupSystemPrompt prompt, HSItem.evAudioStart,
            HSItem.callSetupStartAudio] := by
      simp [handshakeTrace]
    rw [htr] at hi hj
    refine before_of_append_pair _ _ HSItem.callSetupPromptStart
      (HSItem.callSetupSystemPrompt prompt) ?_ ?_ i j hi hj
    · simp [List.mem_map]
    · simp
  · intro i j hi hj
    have htr : handshakeTrace tools prompt =
        ([HSItem.evCreateSession, HSItem.callCreateStreamSession,
          HSItem.evSessionCreated, HSItem.evInitiateSession]
         ++ tools.map (fun t => HSItem.callSetTool t.toolname)
         ++ [HSItem.callInitiateSession, HSItem.evSessionInitiated,
             HSItem.evPromptStart, HSItem.callSetupPromptStart,
             HSItem.evSystemPrompt prompt, HSItem.callSetupSystemPrompt prompt,
             HSItem.evAudioStart])
        ++ [HSItem.callSetupStartAudio] := by
      simp [handshakeTrace]
    rw [htr] at hi hj
    refine before_of_append_pair _ _ (HSItem.callSetupSystemPrompt prompt)
      HSItem.callSetupStartAudio ?_ ?_ i j hi hj
    · simp [List.mem_map]
    · simp

/-- Witness for C6: with tools T1 and T2, the trace holds setTool "T1" at
index 4 and the client initiateSession call at index 6, in that order. -/
theorem handshake_tools_before_initiate_witness :
    (handshakeTrace [ProcessedTool.mk "T1" "d" "s" "c",
        ProcessedTool.mk "T2" "d" "s" "c"] "hi")[4]? = some (HSItem.callSetTool "T1")
    ∧ (handshakeTrace [ProcessedTool.mk "T1" "d" "s" "c",
        ProcessedTool.mk "T2" "d" "s" "c"] "hi")[6]? = some HSItem.callInitiateSession
    ∧ 4 < 6 := by
  refine ⟨rfl, rfl, ?_⟩
  exact (handshake_tools_before_initiate
    [ProcessedTool.mk "T1" "d" "s" "c", ProcessedTool.mk "T2" "d" "s" "c"] "hi").2.2.2.1
    4 6 (HSItem.callSetTool "T1") rfl rfl rfl

end NovaSonic
